import Mathlib

/-!
Shallow embedding of the plan-optimization core of the stripe-migration-analysis
repository (src/transform/src/calculations.py, plus the coupon-multiplier engine
declared in src/transform/src/main.py), with theorems settling the spec claims.

Python floats are modelled as exact rationals; Python `int()` truncation toward
zero is `ratTrunc`; Python dicts (which iterate in insertion order) are lists;
`min(..., key=...)` / `max(..., key=...)` keep the first extremal element, which
`minByFirst` / `maxByFirst` reproduce.
-/

namespace Stripe

/-- A pricing plan, one entry of `BRAND_PLANS` / `AGENCY_PLANS` in
calculations.py. -/
structure Plan where
  name : String
  price : ℚ
  credits : ℚ
  price_per_credit : ℚ
  min_amount : ℚ
  max_org_count : ℤ
deriving DecidableEq

/-- Catalog `BRAND_PLANS` from calculations.py (prices exact rationals). -/
def BRAND_PLANS : List Plan :=
  [⟨"starter", 89, 4450, 89 / 4450, 1000, 1⟩,
   ⟨"pro", 199, 14925, 199 / 14925, 1000, 3⟩,
   ⟨"enterprise", 650, 65000, 650 / 65000, 1000, 5⟩]

/-- Catalog `AGENCY_PLANS` from calculations.py. -/
def AGENCY_PLANS : List Plan :=
  [⟨"intro", 89, 4450, 89 / 4450, 1000, 10⟩,
   ⟨"growth", 199, 14925, 199 / 14925, 1000, 30⟩,
   ⟨"scale", 499, 49900, 499 / 49900, 1000, 50⟩]

/-- Catalog choice `BRAND_PLANS if company_type == "IN_HOUSE" else AGENCY_PLANS`
(calculations.py line 86). -/
def allPlansFor (company_type : String) : List Plan :=
  if company_type = "IN_HOUSE" then BRAND_PLANS else AGENCY_PLANS

/-- Python `min(l, key=f)` on a nonempty list `best :: rest`: scans left to
right, replacing the current best only on a strictly smaller key, so the
first minimal element wins. -/
def minByFirst {α β : Type} [LinearOrder β] (f : α → β) : α → List α → α
  | best, [] => best
  | best, x :: xs => minByFirst f (if f x < f best then x else best) xs

/-- Python `max(l, key=f)` on a nonempty list `best :: rest`: the first
maximal element wins. -/
def maxByFirst {α β : Type} [LinearOrder β] (f : α → β) : α → List α → α
  | best, [] => best
  | best, x :: xs => maxByFirst f (if f best < f x then x else best) xs

/-- Candidate-plan derivation (calculations.py lines 88-96): keep the plans
whose `max_org_count` is at least `orgs_count`; if none qualifies, fall back
to the single plan with the highest `max_org_count`. -/
def candidatePlans (orgs_count : ℤ) (all_plans : List Plan) : List Plan :=
  if (all_plans.filter (fun p => decide (orgs_count ≤ p.max_org_count))).isEmpty then
    match all_plans with
    | [] => []
    | p :: ps => [maxByFirst (fun q => q.max_org_count) p ps]
  else all_plans.filter (fun p => decide (orgs_count ≤ p.max_org_count))

/-- One entry of `least_cost_options` (calculations.py lines 108-115). -/
structure LeastCostOption where
  plan_name : String
  cost : ℚ
  extra_credits : ℚ
  surplus_credits : ℚ
deriving DecidableEq

/-- The least-cost figures computed for one plan (calculations.py lines
100-115): extra credits are `max(0, required - credits)`, rounded up to
`min_amount` when strictly between 0 and it. -/
def leastCostOption (required_credits : ℚ) (p : Plan) : LeastCostOption :=
  let e0 := max 0 (required_credits - p.credits)
  let extra := if 0 < e0 ∧ e0 < p.min_amount then p.min_amount else e0
  { plan_name := p.name
    cost := p.price + extra * p.price_per_credit
    extra_credits := extra
    surplus_credits := p.credits + extra - required_credits }

/-- Selection `best_least_cost = min(least_cost_options, key=cost)`
(calculations.py line 117), over the options listed in catalog order. -/
def bestLeastCost (required_credits : ℚ) (plans : List Plan) :
    Option LeastCostOption :=
  match plans with
  | [] => none
  | p :: ps =>
      some (minByFirst (fun x => x.cost) (leastCostOption required_credits p)
        (ps.map (leastCostOption required_credits)))

/-- The plan the matched-MRR scenario settles on (calculations.py lines
127-140): the most expensive plan strictly cheaper than `current_mrr` when one
exists, otherwise the cheapest plan overall. -/
def matchChosenPlan (current_mrr : ℚ) (plans : List Plan) : Option Plan :=
  match plans.filter (fun p => decide (p.price < current_mrr)) with
  | p :: ps => some (maxByFirst (fun q => q.price) p ps)
  | [] =>
    match plans with
    | p :: ps => some (minByFirst (fun q => q.price) p ps)
    | [] => none

/-- The matched-MRR fields of the result row. -/
structure MatchMrrResult where
  plan_name : String
  monthly_revenue : ℚ
  extra_credits : ℤ
  surplus_credits : ℚ
deriving DecidableEq

/-- Overage purchase for the matched-MRR scenario (calculations.py lines
142-165): buy `ceil(remaining / price_per_credit)` credits when current MRR
exceeds the plan price, none otherwise. -/
def mkMatchResult (current_mrr required_credits : ℚ) (p : Plan) :
    MatchMrrResult :=
  let remaining := current_mrr - p.price
  if 0 < remaining then
    let extra : ℤ := ⌈remaining / p.price_per_credit⌉
    { plan_name := p.name
      monthly_revenue := p.price + extra * p.price_per_credit
      extra_credits := extra
      surplus_credits := p.credits + extra - required_credits }
  else
    { plan_name := p.name
      monthly_revenue := p.price
      extra_credits := 0
      surplus_credits := p.credits - required_credits }

/-- The matched-MRR scenario end to end. -/
def matchMrr (current_mrr required_credits : ℚ) (plans : List Plan) :
    Option MatchMrrResult :=
  (matchChosenPlan current_mrr plans).map (mkMatchResult current_mrr required_credits)

/-- Python `int(q)` on a float value: truncation toward zero. -/
def ratTrunc (q : ℚ) : ℤ := if q < 0 then ⌈q⌉ else ⌊q⌋

/-- Price map `MODEL_ID_PRICE_MAP` from calculations.py lines 55-70. -/
def MODEL_ID_PRICE_MAP : List (String × ℚ) :=
  [("gpt-4o", 1), ("chatgpt", 1), ("sonar", 1), ("google-ai-overview", 1),
   ("llama-3-3-70b-instruct", 1 / 2), ("gpt-4o-search", 1), ("claude-sonnet-4", 2),
   ("claude-3-5-haiku", 2), ("gemini-1-5-flash", 1), ("deepseek-r1", 1),
   ("gemini-2-5-flash", 2), ("google-ai-mode", 1), ("grok-2-1212", 2),
   ("gpt-3-5-turbo", 1)]

/-- Python `MODEL_ID_PRICE_MAP.get(mid, 0)`: the mapped price, 0 when the
model id is absent. -/
def modelPrice (mid : String) : ℚ :=
  ((MODEL_ID_PRICE_MAP.find? (fun kv => kv.1 == mid)).map Prod.snd).getD 0

/-- Function `calculate_credits` from calculations.py lines 183-201:
`row.get("chat_interval_in_hours", 24)` with a zero value replaced by 24,
`runs_per_day = 24 / interval_hours`, `runs_per_month = runs_per_day * 30`,
then `int(sum(model_prices) * prompt_limit * runs_per_month)`. -/
def calculate_credits (model_ids : List String) (prompt_limit : ℤ)
    (chat_interval_in_hours : Option ℤ) : ℤ :=
  let interval_hours := chat_interval_in_hours.getD 24
  let interval_hours := if interval_hours = 0 then 24 else interval_hours
  let runs_per_day : ℚ := 24 / (interval_hours : ℚ)
  let days_in_month : ℚ := 30
  let runs_per_month := runs_per_day * days_in_month
  let model_prices := model_ids.map (fun mid => modelPrice mid)
  ratTrunc (model_prices.sum * (prompt_limit : ℚ) * runs_per_month)

/-- The spec formula for the Resource Requirement Calculator, as stated in
claim and spec: (sum of per-model unit prices) × volume × (24 / interval) × 30,
with the interval taken to be 24 when zero or unset; written separately from
`calculate_credits` so the two can be compared. -/
def creditsExact (model_ids : List String) (prompt_limit : ℤ)
    (chat_interval_in_hours : Option ℤ) : ℚ :=
  let iv := chat_interval_in_hours.getD 24
  let iv := if iv = 0 then 24 else iv
  ((model_ids.map modelPrice).sum) * (prompt_limit : ℚ) * (24 / (iv : ℚ)) * 30

/-- A Stripe coupon record, fields from `StripeCoupon` in models.py. -/
structure StripeCoupon where
  id : String
  percent_off : Option ℚ
  amount_off : Option ℤ
  duration : String
  duration_in_months : Option ℤ
deriving DecidableEq

/-- Modelled from the spec: eligibility of a coupon for the multiplier —
`duration == forever`, or `duration == repeating` with `duration_in_months`
present and at least 12 (spec section 4.2). -/
def isLongTermCoupon (c : StripeCoupon) : Bool :=
  c.duration == "forever" ||
    (c.duration == "repeating" &&
      (match c.duration_in_months with
       | some m => decide (12 ≤ m)
       | none => false))

/-- Modelled from the spec: the coupons found by looking each id up in the
coupon catalog; ids absent from the catalog are silently skipped
(spec section 4.2). -/
def foundCoupons (coupon_ids : List String) (catalog : List StripeCoupon) :
    List StripeCoupon :=
  coupon_ids.filterMap (fun cid => catalog.find? (fun c => c.id == cid))

/-- Modelled from the spec: the additively accumulated `percent_off` of the
eligible (long-term) coupons (spec section 4.2). -/
def totalPercentOff (coupon_ids : List String) (catalog : List StripeCoupon) : ℚ :=
  (((foundCoupons coupon_ids catalog).filter isLongTermCoupon).map
    (fun c => c.percent_off.getD 0)).sum

/-- Modelled from the spec: `calculate_coupon_multiplier` is imported from
calculations.py by main.py (and applied at main.py lines 158-169) but its
definition is absent from the sources; per spec section 4.2 it returns the
multiplier `max(0, 1 - total_percent_off / 100)` together with the long-term
count and the total count of coupons found in the catalog. -/
def calculate_coupon_multiplier (coupon_ids : List String)
    (catalog : List StripeCoupon) : ℚ × ℕ × ℕ :=
  (max 0 (1 - totalPercentOff coupon_ids catalog / 100),
   ((foundCoupons coupon_ids catalog).filter isLongTermCoupon).length,
   (foundCoupons coupon_ids catalog).length)

/-! ### Helper lemmas on first-extremum scans -/

theorem minByFirst_mem {α β : Type} [LinearOrder β] (f : α → β) (b : α)
    (l : List α) : minByFirst f b l ∈ b :: l := by
  induction l generalizing b with
  | nil => simp [minByFirst]
  | cons c t ih =>
    simp only [minByFirst]
    by_cases hcb : f c < f b
    · rw [if_pos hcb]
      rcases List.mem_cons.mp (ih c) with h | h
      · simp [h]
      · simp [List.mem_cons.mpr (Or.inr h)]
    · rw [if_neg hcb]
      rcases List.mem_cons.mp (ih b) with h | h
      · simp [h]
      · simp [List.mem_cons.mpr (Or.inr h)]

theorem minByFirst_le {α β : Type} [LinearOrder β] (f : α → β) (b : α)
    (l : List α) : ∀ x ∈ b :: l, f (minByFirst f b l) ≤ f x := by
  induction l generalizing b with
  | nil =>
    intro x hx
    rw [List.mem_singleton] at hx
    subst hx
    simp [minByFirst]
  | cons c t ih =>
    intro x hx
    simp only [minByFirst]
    have hb : f (minByFirst f (if f c < f b then c else b) t) ≤
        f (if f c < f b then c else b) :=
      ih (if f c < f b then c else b) _ (List.mem_cons_self _ _)
    have hbb : f (if f c < f b then c else b) ≤ f b := by
      split
      · exact le_of_lt (by assumption)
      · exact le_refl _
    have hbc : f (if f c < f b then c else b) ≤ f c := by
      split
      · exact le_refl _
      · exact le_of_not_lt (by assumption)
    rcases List.mem_cons.mp hx with rfl | hx
    · exact hb.trans hbb
    · rcases List.mem_cons.mp hx with rfl | hx
      · exact hb.trans hbc
      · exact ih (if f c < f b then c else b) x (List.mem_cons_of_mem _ hx)

theorem minByFirst_first {α β : Type} [LinearOrder β] (f : α → β) (b : α)
    (l : List α) :
    ∃ l1 l2, b :: l = l1 ++ minByFirst f b l :: l2 ∧
      ∀ x ∈ l1, f (minByFirst f b l) < f x := by
  induction l generalizing b with
  | nil => exact ⟨[], [], rfl, by simp⟩
  | cons c t ih =>
    simp only [minByFirst]
    by_cases hcb : f c < f b
    · rw [if_pos hcb]
      obtain ⟨l1, l2, hdec, hlt⟩ := ih c
      refine ⟨b :: l1, l2, ?_, ?_⟩
      · rw [List.cons_append, ← hdec]
      · intro x hx
        rcases List.mem_cons.mp hx with rfl | hx
        · exact lt_of_le_of_lt (minByFirst_le f c t c (List.mem_cons_self _ _)) hcb
        · exact hlt x hx
    · rw [if_neg hcb]
      obtain ⟨l1, l2, hdec, hlt⟩ := ih b
      match l1, hdec, hlt with
      | [], hdec, hlt =>
        have hb : b = minByFirst f b t := (List.cons.injEq _ _ _ _).mp hdec |>.1
        have ht : t = l2 := (List.cons.injEq _ _ _ _).mp hdec |>.2
        refine ⟨[], c :: t, ?_, by simp⟩
        rw [List.nil_append, ← hb]
      | a :: l1t, hdec, hlt =>
        have ha : b = a := (List.cons.injEq _ _ _ _).mp hdec |>.1
        have ht : t = l1t ++ minByFirst f b t :: l2 :=
          (List.cons.injEq _ _ _ _).mp hdec |>.2
        refine ⟨b :: c :: l1t, l2, ?_, ?_⟩
        · rw [List.cons_append, List.cons_append, ← ht]
        · intro x hx
          have hmb : f (minByFirst f b t) < f b := by
            have := hlt a (List.mem_cons_self _ _)
            rwa [← ha] at this
          rcases List.mem_cons.mp hx with rfl | hx
          · exact hmb
          · rcases List.mem_cons.mp hx with rfl | hx
            · exact lt_of_lt_of_le hmb (le_of_not_lt hcb)
            · exact hlt x (List.mem_cons_of_mem _ hx)

theorem minByFirst_map {α β γ : Type} [LinearOrder γ] (g : α → β) (f : β → γ)
    (b : α) (l : List α) :
    minByFirst f (g b) (l.map g) = g (minByFirst (fun x => f (g x)) b l) := by
  induction l generalizing b with
  | nil => rfl
  | cons c t ih =>
    simp only [List.map_cons, minByFirst]
    rw [← apply_ite g]
    exact ih (if f (g c) < f (g b) then c else b)

theorem maxByFirst_mem {α β : Type} [LinearOrder β] (f : α → β) (b : α)
    (l : List α) : maxByFirst f b l ∈ b :: l := by
  induction l generalizing b with
  | nil => simp [maxByFirst]
  | cons c t ih =>
    simp only [maxByFirst]
    by_cases hbc : f b < f c
    · rw [if_pos hbc]
      rcases List.mem_cons.mp (ih c) with h | h
      · simp [h]
      · simp [List.mem_cons.mpr (Or.inr h)]
    · rw [if_neg hbc]
      rcases List.mem_cons.mp (ih b) with h | h
      · simp [h]
      · simp [List.mem_cons.mpr (Or.inr h)]

theorem maxByFirst_ge {α β : Type} [LinearOrder β] (f : α → β) (b : α)
    (l : List α) : ∀ x ∈ b :: l, f x ≤ f (maxByFirst f b l) := by
  induction l generalizing b with
  | nil =>
    intro x hx
    rw [List.mem_singleton] at hx
    subst hx
    simp [maxByFirst]
  | cons c t ih =>
    intro x hx
    simp only [maxByFirst]
    have hb : f (if f b < f c then c else b) ≤
        f (maxByFirst f (if f b < f c then c else b) t) :=
      ih (if f b < f c then c else b) _ (List.mem_cons_self _ _)
    have hbb : f b ≤ f (if f b < f c then c else b) := by
      split
      · exact le_of_lt (by assumption)
      · exact le_refl _
    have hbc : f c ≤ f (if f b < f c then c else b) := by
      split
      · exact le_refl _
      · exact le_of_not_lt (by assumption)
    rcases List.mem_cons.mp hx with rfl | hx
    · exact hbb.trans hb
    · rcases List.mem_cons.mp hx with rfl | hx
      · exact hbc.trans hb
      · exact ih (if f b < f c then c else b) x (List.mem_cons_of_mem _ hx)

/-! ### Lemmas on the candidate-plan derivation -/

theorem candidatePlans_eq_filter (orgs_count : ℤ) (all_plans : List Plan)
    (h : all_plans.filter (fun p => decide (orgs_count ≤ p.max_org_count)) ≠ []) :
    candidatePlans orgs_count all_plans =
      all_plans.filter (fun p => decide (orgs_count ≤ p.max_org_count)) := by
  unfold candidatePlans
  rw [if_neg]
  intro his
  exact h (List.isEmpty_iff.mp his)

theorem candidatePlans_fallback (orgs_count : ℤ) (p : Plan) (ps : List Plan)
    (h : (p :: ps).filter (fun q => decide (orgs_count ≤ q.max_org_count)) = []) :
    candidatePlans orgs_count (p :: ps) =
      [maxByFirst (fun q => q.max_org_count) p ps] := by
  unfold candidatePlans
  rw [h]
  rfl

theorem candidatePlans_ne_nil (orgs_count : ℤ) (all_plans : List Plan)
    (h : all_plans ≠ []) : candidatePlans orgs_count all_plans ≠ [] := by
  obtain ⟨p, ps, hps⟩ := List.exists_cons_of_ne_nil h
  subst hps
  by_cases hf : (p :: ps).filter (fun q => decide (orgs_count ≤ q.max_org_count)) = []
  · rw [candidatePlans_fallback orgs_count p ps hf]
    exact List.cons_ne_nil _ _
  · rw [candidatePlans_eq_filter orgs_count (p :: ps) hf]
    exact hf

theorem bestLeastCost_isSome (required_credits : ℚ) (plans : List Plan)
    (h : plans ≠ []) : (bestLeastCost required_credits plans).isSome = true := by
  match plans, h with
  | p :: ps, _ => rfl

theorem matchChosenPlan_isSome (current_mrr : ℚ) (plans : List Plan)
    (h : plans ≠ []) : (matchChosenPlan current_mrr plans).isSome = true := by
  match plans, h with
  | p :: ps, _ =>
    unfold matchChosenPlan
    rcases hf : (p :: ps).filter (fun q => decide (q.price < current_mrr)) with _ | ⟨a, as⟩ <;>
      rw [hf] <;> rfl

theorem leastCostOption_surplus_nonneg (required_credits : ℚ) (p : Plan) :
    0 ≤ (leastCostOption required_credits p).surplus_credits := by
  have h1 : required_credits - p.credits ≤ max 0 (required_credits - p.credits) :=
    le_max_right _ _
  simp only [leastCostOption]
  by_cases hc : 0 < max 0 (required_credits - p.credits) ∧
      max 0 (required_credits - p.credits) < p.min_amount
  · rw [if_pos hc]
    have h2 := hc.2
    linarith
  · rw [if_neg hc]
    linarith

theorem allPlansFor_ne_nil (company_type : String) :
    allPlansFor company_type ≠ [] := by
  unfold allPlansFor
  split
  · simp [BRAND_PLANS]
  · simp [AGENCY_PLANS]

/-! ### Claim theorems -/

/-- C1: for every segment, sub-account count and required-units figure, the
least-cost scenario returns an option whose cost is a global minimum over the
candidate tiers (after sub-account fallback filtering), and the selected tier
is the first one in catalog iteration order among the cost ties: every
candidate strictly before it costs strictly more. -/
theorem least_cost_selects_global_minimum (company_type : String)
    (orgs_count : ℤ) (required_credits : ℚ) :
    ∃ o, bestLeastCost required_credits
        (candidatePlans orgs_count (allPlansFor company_type)) = some o ∧
      (∀ p ∈ candidatePlans orgs_count (allPlansFor company_type),
        o.cost ≤ (leastCostOption required_credits p).cost) ∧
      ∃ l1 p l2,
        candidatePlans orgs_count (allPlansFor company_type) = l1 ++ p :: l2 ∧
        o = leastCostOption required_credits p ∧
        ∀ q ∈ l1, o.cost < (leastCostOption required_credits q).cost := by
  have hne : candidatePlans orgs_count (allPlansFor company_type) ≠ [] :=
    candidatePlans_ne_nil orgs_count _ (allPlansFor_ne_nil company_type)
  obtain ⟨p0, ps, hps⟩ := List.exists_cons_of_ne_nil hne
  rw [hps]
  simp only [bestLeastCost]
  rw [minByFirst_map (leastCostOption required_credits) (fun x => x.cost) p0 ps]
  refine ⟨leastCostOption required_credits
      (minByFirst (fun q => (leastCostOption required_credits q).cost) p0 ps),
    rfl, ?_, ?_⟩
  · intro p hp
    exact minByFirst_le (fun q => (leastCostOption required_credits q).cost) p0 ps p hp
  · obtain ⟨l1, l2, hdec, hlt⟩ :=
      minByFirst_first (fun q => (leastCostOption required_credits q).cost) p0 ps
    exact ⟨l1, _, l2, hdec, rfl, hlt⟩

/-- Witness for C1 at a concrete input. -/
theorem least_cost_selects_global_minimum_w :
    ∃ o, bestLeastCost 50000 (candidatePlans 1 (allPlansFor "IN_HOUSE")) = some o ∧
      (∀ p ∈ candidatePlans 1 (allPlansFor "IN_HOUSE"),
        o.cost ≤ (leastCostOption 50000 p).cost) ∧
      ∃ l1 p l2, candidatePlans 1 (allPlansFor "IN_HOUSE") = l1 ++ p :: l2 ∧
        o = leastCostOption 50000 p ∧
        ∀ q ∈ l1, o.cost < (leastCostOption 50000 q).cost :=
  least_cost_selects_global_minimum "IN_HOUSE" 1 50000

/-- C2: per candidate tier, the extra units equal
`max 0 (required - included)`, rounded up to the minimum overage purchase
whenever strictly between 0 and it; the cost is
`base_price + extra * unit_price`; and when the requirement fits inside the
included units the extra is 0 and the cost is exactly the base price. -/
theorem least_cost_per_tier_formula (required_credits : ℚ) (p : Plan) :
    ((0 < max 0 (required_credits - p.credits) ∧
        max 0 (required_credits - p.credits) < p.min_amount) →
      (leastCostOption required_credits p).extra_credits = p.min_amount) ∧
    (¬(0 < max 0 (required_credits - p.credits) ∧
        max 0 (required_credits - p.credits) < p.min_amount) →
      (leastCostOption required_credits p).extra_credits =
        max 0 (required_credits - p.credits)) ∧
    (leastCostOption required_credits p).cost =
      p.price + (leastCostOption required_credits p).extra_credits *
        p.price_per_credit ∧
    (required_credits ≤ p.credits →
      (leastCostOption required_credits p).extra_credits = 0 ∧
      (leastCostOption required_credits p).cost = p.price) := by
  refine ⟨?_, ?_, ?_, ?_⟩
  · intro h
    simp only [leastCostOption]
    rw [if_pos h]
  · intro h
    simp only [leastCostOption]
    rw [if_neg h]
  · simp only [leastCostOption]
  · intro h
    have he0 : max 0 (required_credits - p.credits) = 0 :=
      max_eq_left (by linarith)
    simp only [leastCostOption, he0]
    rw [if_neg (by simp)]
    refine ⟨rfl, by ring⟩

/-- Witness for C2 at a concrete input. -/
theorem least_cost_per_tier_formula_w :
    (leastCostOption 0 ⟨"starter", 89, 4450, 89 / 4450, 1000, 1⟩).extra_credits = 0 ∧
    (leastCostOption 0 ⟨"starter", 89, 4450, 89 / 4450, 1000, 1⟩).cost =
      (⟨"starter", 89, 4450, 89 / 4450, 1000, 1⟩ : Plan).price :=
  (least_cost_per_tier_formula 0 ⟨"starter", 89, 4450, 89 / 4450, 1000, 1⟩).2.2.2
    (by norm_num)

/-- C9: the least-cost scenario's surplus units are never negative: the chosen
tier's included units plus the purchased extra always cover the requirement,
for every catalog and non-negative requirement. -/
theorem least_cost_surplus_nonneg (required_credits : ℚ) (plans : List Plan)
    (o : LeastCostOption) (h0 : 0 ≤ required_credits)
    (h : bestLeastCost required_credits plans = some o) :
    0 ≤ o.surplus_credits := by
  match plans, h with
  | p :: ps, h =>
    simp only [bestLeastCost, Option.some.injEq] at h
    subst h
    have hmem := minByFirst_mem (fun x : LeastCostOption => x.cost)
      (leastCostOption required_credits p) (ps.map (leastCostOption required_credits))
    rw [← List.map_cons] at hmem
    obtain ⟨q, hq, hqe⟩ := List.mem_map.mp hmem
    rw [← hqe]
    exact leastCostOption_surplus_nonneg required_credits q

/-- Witness for C9 at a concrete input. -/
theorem least_cost_surplus_nonneg_w :
    0 ≤ (⟨"starter", 89, 0, 4450⟩ : LeastCostOption).surplus_credits :=
  least_cost_surplus_nonneg 0 BRAND_PLANS ⟨"starter", 89, 0, 4450⟩ le_rfl
    (by norm_num [bestLeastCost, BRAND_PLANS, leastCostOption, minByFirst])

/-- C10: catalog selection keys only on whether the company type equals
IN_HOUSE: IN_HOUSE gets the brand (self-managed) catalog and every other
type, AGENCY and PARTNER included, gets the agency-managed catalog. -/
theorem catalog_keyed_on_in_house :
    allPlansFor "IN_HOUSE" = BRAND_PLANS ∧
    allPlansFor "AGENCY" = AGENCY_PLANS ∧
    allPlansFor "PARTNER" = AGENCY_PLANS ∧
    ∀ company_type : String, company_type ≠ "IN_HOUSE" →
      allPlansFor company_type = AGENCY_PLANS := by
  refine ⟨rfl, rfl, rfl, ?_⟩
  intro t ht
  unfold allPlansFor
  rw [if_neg ht]

/-- Witness for C10 at a concrete input. -/
theorem catalog_keyed_on_in_house_w : allPlansFor "PARTNER" = AGENCY_PLANS :=
  catalog_keyed_on_in_house.2.2.2 "PARTNER" (by decide)

/-- C3: match-revenue tier selection: when some candidate is strictly cheaper
than current revenue, the chosen tier maximizes base price among those;
otherwise the cheapest candidate is chosen, and in that fallback case no
extra units are purchased. -/
theorem match_revenue_tier_selection (current_mrr required_credits : ℚ)
    (plans : List Plan) :
    (plans.filter (fun p => decide (p.price < current_mrr)) ≠ [] →
      ∃ p, matchChosenPlan current_mrr plans = some p ∧
        p ∈ plans.filter (fun q => decide (q.price < current_mrr)) ∧
        ∀ q ∈ plans.filter (fun q => decide (q.price < current_mrr)),
          q.price ≤ p.price) ∧
    (plans ≠ [] → plans.filter (fun p => decide (p.price < current_mrr)) = [] →
      ∃ p, matchChosenPlan current_mrr plans = some p ∧ p ∈ plans ∧
        (∀ q ∈ plans, p.price ≤ q.price) ∧
        (matchMrr current_mrr required_credits plans).map
          (fun r => r.extra_credits) = some 0) := by
  constructor
  · intro hf
    rcases hfe : plans.filter (fun p => decide (p.price < current_mrr)) with _ | ⟨a, as⟩
    · exact absurd hfe hf
    · refine ⟨maxByFirst (fun q => q.price) a as, ?_, ?_, ?_⟩
      · unfold matchChosenPlan
        rw [hfe]
      · rw [hfe]
        exact maxByFirst_mem _ a as
      · rw [hfe]
        exact maxByFirst_ge _ a as
  · intro hne hfe
    match plans, hne, hfe with
    | p :: ps, _, hfe =>
      have hchosen : matchChosenPlan current_mrr (p :: ps) =
          some (minByFirst (fun q => q.price) p ps) := by
        unfold matchChosenPlan
        rw [hfe]
      refine ⟨minByFirst (fun q => q.price) p ps, hchosen, minByFirst_mem _ p ps,
        minByFirst_le _ p ps, ?_⟩
      have hge : current_mrr ≤ (minByFirst (fun q => q.price) p ps).price := by
        have hnot := List.filter_eq_nil_iff.mp hfe _ (minByFirst_mem (fun q : Plan => q.price) p ps)
        simp only [decide_eq_true_eq] at hnot
        exact le_of_not_lt hnot
      unfold matchMrr
      rw [hchosen]
      simp only [Option.map_some']
      unfold mkMatchResult
      rw [if_neg (by linarith)]

/-- Witness for C3 at a concrete input: with current revenue 100 only the
cheapest agency tier is suitable, and it is chosen. -/
theorem match_revenue_tier_selection_w :
    ∃ p, matchChosenPlan 100 AGENCY_PLANS = some p ∧
      p ∈ AGENCY_PLANS.filter (fun q => decide (q.price < 100)) ∧
      ∀ q ∈ AGENCY_PLANS.filter (fun q => decide (q.price < 100)),
        q.price ≤ p.price :=
  (match_revenue_tier_selection 100 0 AGENCY_PLANS).1
    (by norm_num [AGENCY_PLANS, List.filter])

/-- C4: match-revenue overage purchase: with `remainder = current_revenue -
base_price`, a positive remainder buys exactly `ceil(remainder / unit_price)`
units at `base_price + purchased * unit_price` total (never under-matching
revenue when the unit price is positive), a non-positive remainder buys
nothing at exactly the base price, and a remainder of exactly one unit price
buys exactly one unit. -/
theorem match_revenue_overage (current_mrr required_credits : ℚ)
    (plans : List Plan) (p : Plan)
    (h : matchChosenPlan current_mrr plans = some p) :
    matchMrr current_mrr required_credits plans =
      some (mkMatchResult current_mrr required_credits p) ∧
    (0 < current_mrr - p.price →
      (mkMatchResult current_mrr required_credits p).extra_credits =
        ⌈(current_mrr - p.price) / p.price_per_credit⌉ ∧
      (mkMatchResult current_mrr required_credits p).monthly_revenue =
        p.price + ⌈(current_mrr - p.price) / p.price_per_credit⌉ *
          p.price_per_credit) ∧
    (0 < current_mrr - p.price → 0 < p.price_per_credit →
      current_mrr ≤ (mkMatchResult current_mrr required_credits p).monthly_revenue) ∧
    (current_mrr - p.price ≤ 0 →
      (mkMatchResult current_mrr required_credits p).extra_credits = 0 ∧
      (mkMatchResult current_mrr required_credits p).monthly_revenue = p.price) ∧
    (current_mrr - p.price = p.price_per_credit → 0 < p.price_per_credit →
      (mkMatchResult current_mrr required_credits p).extra_credits = 1) := by
  refine ⟨?_, ?_, ?_, ?_, ?_⟩
  · unfold matchMrr
    rw [h]
    rfl
  · intro hr
    simp only [mkMatchResult]
    rw [if_pos hr]
    exact ⟨rfl, rfl⟩
  · intro hr hppc
    simp only [mkMatchResult]
    rw [if_pos hr]
    have hle : (current_mrr - p.price) / p.price_per_credit ≤
        (⌈(current_mrr - p.price) / p.price_per_credit⌉ : ℚ) :=
      Int.le_ceil _
    have hmul := mul_le_mul_of_nonneg_right hle (le_of_lt hppc)
    rw [div_mul_cancel₀ _ (ne_of_gt hppc)] at hmul
    simp only
    linarith
  · intro hr
    simp only [mkMatchResult]
    rw [if_neg (not_lt.mpr hr)]
    exact ⟨rfl, rfl⟩
  · intro he hppc
    simp only [mkMatchResult]
    rw [if_pos (by rw [he]; exact hppc)]
    simp only [he]
    rw [div_self (ne_of_gt hppc)]
    norm_num

/-- Witness for C4 at a concrete input: the chosen tier for agency plans at
current revenue 100 is the 89-priced intro tier. -/
theorem match_revenue_overage_w :
    matchMrr 100 0 AGENCY_PLANS =
      some (mkMatchResult 100 0 ⟨"intro", 89, 4450, 89 / 4450, 1000, 10⟩) :=
  (match_revenue_overage 100 0 AGENCY_PLANS ⟨"intro", 89, 4450, 89 / 4450, 1000, 10⟩
    (by norm_num [matchChosenPlan, AGENCY_PLANS, maxByFirst, List.filter])).1

/-- C6: candidate tiers are exactly those supporting the sub-account count;
when none qualifies the single highest-capacity tier becomes the only
candidate; the candidate set is never empty, so both scenario selections
always produce a result. -/
theorem candidate_set_filter_and_fallback (orgs_count : ℤ)
    (all_plans : List Plan) (required_credits current_mrr : ℚ)
    (h : all_plans ≠ []) :
    (all_plans.filter (fun p => decide (orgs_count ≤ p.max_org_count)) ≠ [] →
      candidatePlans orgs_count all_plans =
        all_plans.filter (fun p => decide (orgs_count ≤ p.max_org_count))) ∧
    (all_plans.filter (fun p => decide (orgs_count ≤ p.max_org_count)) = [] →
      ∃ p, candidatePlans orgs_count all_plans = [p] ∧ p ∈ all_plans ∧
        ∀ q ∈ all_plans, q.max_org_count ≤ p.max_org_count) ∧
    candidatePlans orgs_count all_plans ≠ [] ∧
    (bestLeastCost required_credits (candidatePlans orgs_count all_plans)).isSome
      = true ∧
    (matchMrr current_mrr required_credits
      (candidatePlans orgs_count all_plans)).isSome = true := by
  refine ⟨candidatePlans_eq_filter orgs_count all_plans, ?_, ?_, ?_, ?_⟩
  · intro hfe
    match all_plans, h, hfe with
    | p :: ps, _, hfe =>
      refine ⟨maxByFirst (fun q => q.max_org_count) p ps,
        candidatePlans_fallback orgs_count p ps hfe,
        maxByFirst_mem _ p ps, maxByFirst_ge _ p ps⟩
  · exact candidatePlans_ne_nil orgs_count all_plans h
  · exact bestLeastCost_isSome required_credits _
      (candidatePlans_ne_nil orgs_count all_plans h)
  · unfold matchMrr
    rw [Option.isSome_map']
    exact matchChosenPlan_isSome current_mrr _
      (candidatePlans_ne_nil orgs_count all_plans h)

/-- Witness for C6 at a concrete input. -/
theorem candidate_set_filter_and_fallback_w :
    candidatePlans 4 BRAND_PLANS ≠ [] :=
  (candidate_set_filter_and_fallback 4 BRAND_PLANS 0 0
    (by simp [BRAND_PLANS])).2.2.1

/-- C5 counterexample: on the self-managed catalog of the code (enterprise is
650 for 65000 units, not 499 for 49900 as the spec example says), the
least-cost scenario at required units 50000 does not produce the claimed
(cost 509, extra 1000, surplus 900) figures. -/
theorem example_50000_claim_fails :
    (bestLeastCost 50000 (candidatePlans 1 (allPlansFor "IN_HOUSE"))).map
      (fun o => (o.plan_name, o.cost, o.extra_credits, o.surplus_credits)) ≠
    some ("enterprise", 509, 1000, 900) := by
  norm_num [bestLeastCost, candidatePlans, allPlansFor, BRAND_PLANS,
    leastCostOption, minByFirst, maxByFirst, List.filter]

/-- C5 amended: for the self-managed segment at required units 50000 and a
sub-account count every tier supports, the least-cost scenario selects the
enterprise tier (650 for 65000 included units) with no extra units, cost 650
and surplus 15000. -/
theorem example_50000_actual :
    (bestLeastCost 50000 (candidatePlans 1 (allPlansFor "IN_HOUSE"))).map
      (fun o => (o.plan_name, o.cost, o.extra_credits, o.surplus_credits)) =
    some ("enterprise", 650, 0, 15000) := by
  norm_num [bestLeastCost, candidatePlans, allPlansFor, BRAND_PLANS,
    leastCostOption, minByFirst, maxByFirst, List.filter]

/-- C7 counterexample: at interval 7 hours the returned credits (an integer)
differ from the exact product `sum * volume * (24/7) * 30 = 720/7`, because
the code truncates with `int(...)`. -/
theorem credits_not_exact_product :
    ((calculate_credits ["gpt-4o"] 1 (some 7) : ℤ) : ℚ) ≠
      creditsExact ["gpt-4o"] 1 (some 7) := by
  have hm : modelPrice "gpt-4o" = 1 := rfl
  have hc : calculate_credits ["gpt-4o"] 1 (some 7) = 102 := by
    simp only [calculate_credits, List.map, hm, List.sum_cons, List.sum_nil,
      Option.getD, ratTrunc]
    rw [if_neg (by norm_num), Int.floor_eq_iff]
    norm_num
  have he : creditsExact ["gpt-4o"] 1 (some 7) = 720 / 7 := by
    simp only [creditsExact, List.map, hm, List.sum_cons, List.sum_nil,
      Option.getD]
    norm_num
  rw [hc, he]
  norm_num

/-- C7 amended: the returned credits equal the integer truncation (toward
zero) of the product `(sum of per-model prices) * volume * (24/interval) *
30`; unknown model ids contribute 0; and a zero interval behaves exactly like
an absent one (both default to 24 hours). -/
theorem credits_truncated_product (model_ids : List String) (prompt_limit : ℤ)
    (chat_interval_in_hours : Option ℤ) :
    calculate_credits model_ids prompt_limit chat_interval_in_hours =
      ratTrunc (creditsExact model_ids prompt_limit chat_interval_in_hours) ∧
    (∀ mid : String, MODEL_ID_PRICE_MAP.find? (fun kv => kv.1 == mid) = none →
      modelPrice mid = 0) ∧
    calculate_credits model_ids prompt_limit (some 0) =
      calculate_credits model_ids prompt_limit none := by
  refine ⟨?_, ?_, ?_⟩
  · simp only [calculate_credits, creditsExact]
    congr 1
    ring
  · intro mid hm
    unfold modelPrice
    rw [hm]
    rfl
  · rfl

/-- Witness for C7 amended at a concrete input. -/
theorem credits_truncated_product_w :
    calculate_credits ["gpt-4o"] 1 (some 7) =
      ratTrunc (creditsExact ["gpt-4o"] 1 (some 7)) :=
  (credits_truncated_product ["gpt-4o"] 1 (some 7)).1

/-- C8: for every coupon-id list and catalog of non-negative percent-off
coupons, the multiplier is `max 0 (1 - total_percent_off/100)`, lies in
[0, 1], and the empty coupon list yields exactly (1, 0, 0). -/
theorem coupon_multiplier_bounds (coupon_ids : List String)
    (catalog : List StripeCoupon)
    (h : ∀ c ∈ catalog, 0 ≤ c.percent_off.getD 0) :
    0 ≤ (calculate_coupon_multiplier coupon_ids catalog).1 ∧
    (calculate_coupon_multiplier coupon_ids catalog).1 ≤ 1 ∧
    (calculate_coupon_multiplier coupon_ids catalog).1 =
      max 0 (1 - totalPercentOff coupon_ids catalog / 100) ∧
    calculate_coupon_multiplier [] catalog = (1, 0, 0) := by
  have hsub : ∀ c ∈ (foundCoupons coupon_ids catalog).filter isLongTermCoupon,
      c ∈ catalog := by
    intro c hc
    have hc2 := List.mem_of_mem_filter hc
    obtain ⟨cid, hcid, hfind⟩ := List.mem_filterMap.mp hc2
    exact List.mem_of_find?_eq_some hfind
  have htot : 0 ≤ totalPercentOff coupon_ids catalog := by
    unfold totalPercentOff
    apply List.sum_nonneg
    intro x hx
    obtain ⟨c, hc, hce⟩ := List.mem_map.mp hx
    rw [← hce]
    exact h c (hsub c hc)
  refine ⟨le_max_left _ _, ?_, rfl, ?_⟩
  · unfold calculate_coupon_multiplier
    apply max_le
    · norm_num
    · linarith
  · simp only [calculate_coupon_multiplier, foundCoupons, totalPercentOff,
      List.filterMap_nil, List.filter_nil, List.map_nil, List.sum_nil,
      List.length_nil]
    norm_num

/-- Witness for C8 at a concrete input: a single forever 20-percent coupon. -/
theorem coupon_multiplier_bounds_w :
    0 ≤ (calculate_coupon_multiplier ["c1"]
      [⟨"c1", some 20, none, "forever", none⟩]).1 ∧
    (calculate_coupon_multiplier ["c1"]
      [⟨"c1", some 20, none, "forever", none⟩]).1 ≤ 1 :=
  ⟨(coupon_multiplier_bounds ["c1"] [⟨"c1", some 20, none, "forever", none⟩]
      (by intro c hc; rw [List.mem_singleton] at hc; subst hc; norm_num)).1,
   (coupon_multiplier_bounds ["c1"] [⟨"c1", some 20, none, "forever", none⟩]
      (by intro c hc; rw [List.mem_singleton] at hc; subst hc; norm_num)).2.1⟩

end Stripe
